import Mathlib

/-!
Shallow embedding of the hospital-directory server (`server.js`):
the ingestion pipeline (`sanitizeData`, the per-row classifier inside
`loadHospitalData`) and the query engine (the route handlers reading the
in-memory `hospitals` array and the derived `districts` / `states` sets).

JavaScript values are modelled as follows:
* a raw CSV cell is `Option String` (`none` = `null`/`undefined`);
* an object field that may be absent (`rawHospital.X` when column `X` is
  missing) is `Option String` (`none` = `undefined`);
* `String.prototype.toLowerCase` is `jsToLower` (character-wise lowering,
  faithful on the ASCII data involved);
* `String.prototype.includes` is `strIncludes`;
* `String.prototype.trim` is `jsTrim`;
* `parseInt` is `parseIntJS` (`none` = `NaN`; decimal numerals with an
  optional sign after leading whitespace, as for the numeric CSV columns);
* `String.prototype.localeCompare` is `localeCompare`, the comparator of
  the standard lexicographic linear order on `String`;
* a thrown `TypeError` (reading a property of `undefined`) is `Except.error`;
* `Array.prototype.sort`, which ECMA-262 requires to be stable, is the
  stable insertion sort `stableSort` driven by the JS comparator.
-/

namespace CancerDashboard

/-- Character-wise lowercasing, the embedding of `toLowerCase` on the ASCII
data this server handles. -/
def jsToLower (s : String) : String := ⟨s.data.map Char.toLower⟩

/-- Drop leading whitespace characters. -/
def dropLeadingWS : List Char → List Char
  | [] => []
  | c :: t => if c.isWhitespace then dropLeadingWS t else c :: t

/-- Embedding of `String.prototype.trim`: drop whitespace from both ends. -/
def jsTrim (s : String) : String :=
  ⟨((dropLeadingWS ((dropLeadingWS s.data).reverse)).reverse)⟩

/-- Helper for `strIncludes`: does `pat` occur as a contiguous run in the
character list? -/
def includesAux (pat : List Char) : List Char → Bool
  | [] => pat.isEmpty
  | c :: t => if pat.isPrefixOf (c :: t) then true else includesAux pat t

/-- Embedding of `s.includes(pat)`. -/
def strIncludes (s pat : String) : Bool := includesAux pat.data s.data

/-- Longest leading run of decimal digits. -/
def takeDigits : List Char → List Char
  | [] => []
  | c :: t => if c.isDigit then c :: takeDigits t else []

/-- Numeric value of a digit list (most significant first). -/
def digitsToNat (ds : List Char) : Nat :=
  ds.foldl (fun acc c => acc * 10 + (c.toNat - 48)) 0

/-- Value of the leading digit run, or `none` when there is none. -/
def leadDigits (cs : List Char) : Option Nat :=
  match takeDigits cs with
  | [] => none
  | ds => some (digitsToNat ds)

/-- Embedding of `parseInt` on the decimal numerals found in the numeric CSV
columns: skip leading whitespace, read an optional sign and then the longest
digit prefix; `none` stands for `NaN`. -/
def parseIntJS (s : String) : Option Int :=
  match dropLeadingWS s.data with
  | '-' :: rest => (leadDigits rest).map (fun n => -(n : Int))
  | '+' :: rest => (leadDigits rest).map (fun n => (n : Int))
  | cs => (leadDigits cs).map (fun n => (n : Int))

/-- Embedding of `parseInt(s) > n` (`NaN > n` is `false` in JS). -/
def parseIntGt (s : String) (n : Int) : Bool :=
  match parseIntJS s with
  | some k => decide (k > n)
  | none => false

/-- Embedding of `a.localeCompare(b)`: sign of the comparison in the
lexicographic linear order on strings. -/
def localeCompare (a b : String) : Int :=
  if a < b then -1 else if b < a then 1 else 0

/-- A raw CSV row as handed to the `data` callback: column name to raw cell
value, `none` standing for a `null`/`undefined` cell. -/
abbrev RawRow : Type := List (String × Option String)

/-- First value bound to key `k`, `none` when the key is absent
(JS property access on a missing key). -/
def lookupKey (d : List (String × String)) (k : String) : Option String :=
  (d.find? (fun kv => kv.1 == k)).map (fun kv => kv.2)

/-- The body of the `sanitizeData` loop for one value:
`(!data[key] || data[key] === '0') ? '' : data[key].trim()`. -/
def sanitizeValue : Option String → String
  | none => ""
  | some v => if v = "" ∨ v = "0" then "" else jsTrim v

/-- Embedding of `sanitizeData`: apply `sanitizeValue` to every property,
keeping the keys. -/
def sanitizeData (d : RawRow) : List (String × String) :=
  d.map (fun kv => (kv.1, sanitizeValue kv.2))

/-- The in-memory hospital object built in the `data` callback.  Every field
is `Option String`: `none` models `undefined` (the CSV column was absent). -/
structure Hospital where
  id : Option String := none
  name : Option String := none
  coordinates : Option String := none
  location : Option String := none
  category : Option String := none
  careType : Option String := none
  medicine : Option String := none
  address : Option String := none
  state : Option String := none
  district : Option String := none
  subdistrict : Option String := none
  pincode : Option String := none
  telephone : Option String := none
  mobile : Option String := none
  emergency : Option String := none
  ambulance : Option String := none
  bloodbank : Option String := none
  email : Option String := none
  website : Option String := none
  specialties : Option String := none
  facilities : Option String := none
  totalBeds : Option String := none
  privateWards : Option String := none
  doctors : Option String := none
deriving DecidableEq

/-- The `hospital` object literal of the `data` callback, field by field. -/
def mkHospital (raw : List (String × String)) : Hospital where
  id := lookupKey raw "Sr_No"
  name := lookupKey raw "Hospital_Name"
  coordinates := lookupKey raw "Location_Coordinates"
  location := lookupKey raw "Location"
  category := lookupKey raw "Hospital_Category"
  careType := lookupKey raw "Hospital_Care_Type"
  medicine := lookupKey raw "Discipline_Systems_of_Medicine"
  address := lookupKey raw "Address_Original_First_Line"
  state := lookupKey raw "State"
  district := lookupKey raw "District"
  subdistrict := lookupKey raw "Subdistrict"
  pincode := lookupKey raw "Pincode"
  telephone := lookupKey raw "Telephone"
  mobile := lookupKey raw "Mobile_Number"
  emergency := lookupKey raw "Emergency_Num"
  ambulance := lookupKey raw "Ambulance_Phone_No"
  bloodbank := lookupKey raw "Bloodbank_Phone_No"
  email := lookupKey raw "Hospital_Primary_Email_Id"
  website := lookupKey raw "Website"
  specialties := lookupKey raw "Specialties"
  facilities := lookupKey raw "Facilities"
  totalBeds := lookupKey raw "Total_Num_Beds"
  privateWards := lookupKey raw "Number_Private_Wards"
  doctors := lookupKey raw "Number_Doctor"

/-- Embedding of `hospital.specialties?.toLowerCase().includes(pat)` used
negated in the classifier: optional chaining yields `undefined` (falsy) on an
absent field. -/
def optIncludes (v : Option String) (pat : String) : Bool :=
  match v with
  | none => false
  | some s => strIncludes (jsToLower s) pat

/-- Embedding of `(hospital.totalBeds && parseInt(hospital.totalBeds) > n)`
(and the analogous doctors guard): the field must be truthy and its
`parseInt` value strictly above `n` (`NaN` compares false). -/
def numGuard (v : Option String) (n : Int) : Bool :=
  match v with
  | none => false
  | some s => if s = "" then false else parseIntGt s n

/-- The classifier condition of the `data` callback (`server.js` lines
93-120), conjunct by conjunct in source order.  JS `&&` short-circuits left
to right; the first three conjuncts (name truthy, medicine truthy, medicine
contains "allopathy") and the unguarded read of `hospital.category` are kept
sequential because they decide whether the later conjuncts are evaluated at
all and whether a `TypeError` is raised — `hospital.category.toLowerCase()`
is not protected by `?.` in the source, so an absent `category` raises,
modelled as `Except.error ()`.  The remaining conjuncts (lines 96-120) are
pure and total (`specialties` and `careType` use optional chaining), so
their short-circuit evaluation is observationally one boolean conjunction,
written as such. -/
def classifyE (h : Hospital) : Except Unit Bool :=
  match h.name with
  | none => .ok false
  | some nm =>
    if nm = "" then .ok false else
    match h.medicine with
    | none => .ok false
    | some med =>
      if med = "" then .ok false else
      if !(strIncludes (jsToLower med) "allopathy") then .ok false else
      match h.category with
      | none => .error ()
      | some cat =>
        .ok (!(strIncludes (jsToLower cat) "dispensary") &&
          !(strIncludes (jsToLower cat) "nursing home") &&
          !(strIncludes (jsToLower nm) "children") &&
          !(strIncludes (jsToLower nm) "child") &&
          !(optIncludes h.specialties "pediatric") &&
          !(optIncludes h.specialties "children") &&
          !(strIncludes (jsToLower nm) "nursing home") &&
          !(strIncludes (jsToLower nm) "nursing") &&
          !(strIncludes (jsToLower nm) "nursing home") &&
          !(strIncludes (jsToLower nm) "nursinghome") &&
          !(strIncludes (jsToLower nm) "nursing-home") &&
          !(strIncludes (jsToLower nm) "nursing_home") &&
          !(strIncludes (jsToLower cat) "nursing") &&
          !(optIncludes h.careType "nursing") &&
          !(strIncludes (jsToLower nm) "clinic") &&
          !(strIncludes (jsToLower nm) "dispensary") &&
          !(strIncludes (jsToLower nm) "health center") &&
          !(strIncludes (jsToLower nm) "health centre") &&
          !(strIncludes (jsToLower nm) "healthcare center") &&
          !(strIncludes (jsToLower nm) "healthcare centre") &&
          numGuard h.totalBeds 10 &&
          numGuard h.doctors 2)

/-- One row through the `data` callback: sanitize, build the object, classify;
`some h` when the row is pushed onto `results`, `none` when it is rejected or
its processing raised (the `catch` block logs and skips). -/
def processRow (row : RawRow) : Option Hospital :=
  let h := mkHospital (sanitizeData row)
  match classifyE h with
  | .ok true => some h
  | _ => none

/-- The mutable server state: the `hospitals` array and the `districts` /
`states` sets (a JS `Set` keeps insertion order, modelled as a
duplicate-free list). -/
structure ServerState where
  hospitals : List Hospital
  districts : List String
  states : List String
deriving DecidableEq

/-- `Set.prototype.add`: append when not already present. -/
def setAdd (s : List String) (x : String) : List String :=
  if x ∈ s then s else s ++ [x]

/-- The guarded set insertion
`if (hospital.district && hospital.district.trim()) districts.add(...)`. -/
def addIfTruthy (s : List String) (v : Option String) : List String :=
  match v with
  | none => s
  | some d =>
    if d = "" then s else
    if jsTrim d = "" then s else setAdd s (jsTrim d)

/-- The state before any row is processed. -/
def emptyState : ServerState := ⟨[], [], []⟩

/-- Effect of one `data` callback invocation on the accumulated state. -/
def stepRow (st : ServerState) (row : RawRow) : ServerState :=
  let h := mkHospital (sanitizeData row)
  match classifyE h with
  | .ok true =>
    { hospitals := st.hospitals ++ [h]
      districts := addIfTruthy st.districts h.district
      states := addIfTruthy st.states h.state }
  | _ => st

/-- Draining the whole row stream: the Directory Store committed at `end`. -/
def loadStore (rows : List RawRow) : ServerState :=
  rows.foldl stepRow emptyState

/-! ### The sort primitive

`Array.prototype.sort(comparator)` is stable (ECMA-262); with the consistent
comparators of this server its result is the unique stable sort, embedded
here as an insertion sort that inserts each element before its ties. -/

/-- Insert `a` before the first element `b` with `le a b`. -/
def orderedInsert (le : α → α → Bool) (a : α) : List α → List α
  | [] => [a]
  | b :: l => if le a b then a :: b :: l else b :: orderedInsert le a l

/-- Stable insertion sort by the boolean relation `le`. -/
def stableSort (le : α → α → Bool) : List α → List α
  | [] => []
  | a :: l => orderedInsert le a (stableSort le l)

/-- `array.sort(c)` for a JS comparator `c`: keep `a` before `b` when
`c(a,b) <= 0`. -/
def jsSort (c : α → α → Int) (l : List α) : List α :=
  stableSort (fun a b => decide (c a b ≤ 0)) l

/-! ### Query engine predicates and comparators, from the route handlers -/

/-- The `district` filter predicate:
`hospital.district && hospital.district.toLowerCase() === district.toLowerCase()`. -/
def districtPred (d : String) (h : Hospital) : Bool :=
  match h.district with
  | none => false
  | some s => if s = "" then false else jsToLower s == jsToLower d

/-- The `state` filter predicate:
`hospital.state && hospital.state.toLowerCase() === state.toLowerCase()`. -/
def statePred (st : String) (h : Hospital) : Bool :=
  match h.state with
  | none => false
  | some s => if s = "" then false else jsToLower s == jsToLower st

/-- The locality filter predicate (with truthiness guard):
`hospital.subdistrict && hospital.subdistrict.toLowerCase().includes(locality.toLowerCase())`. -/
def subLocFilter (loc : String) (h : Hospital) : Bool :=
  match h.subdistrict with
  | none => false
  | some s => if s = "" then false else strIncludes (jsToLower s) (jsToLower loc)

/-- The optional-chained locality test used inside comparators:
`h.subdistrict?.toLowerCase().includes(locality.toLowerCase())` (falsy when
`subdistrict` is absent). -/
def subInLocB (loc : String) (h : Hospital) : Bool :=
  match h.subdistrict with
  | none => false
  | some s => strIncludes (jsToLower s) (jsToLower loc)

/-- The name-search filter predicate:
`hospital.name && hospital.name.toLowerCase().includes(query.toLowerCase())`. -/
def namePred (q : String) (h : Hospital) : Bool :=
  match h.name with
  | none => false
  | some s => if s = "" then false else strIncludes (jsToLower s) (jsToLower q)

/-- `h.name` as read inside the search comparator, where every record has
already passed `namePred` and so has a present name (`getD` never fires on
the comparator's actual inputs). -/
def nameD (h : Hospital) : String := h.name.getD ""

/-- `a.name.toLowerCase() === query.toLowerCase()` in the search comparator. -/
def nameExact (q : String) (h : Hospital) : Bool :=
  jsToLower (nameD h) == jsToLower q

/-- The comparator of the district route's locality prioritisation
(`server.js` lines 213-220). -/
def localityCmp (loc : String) (a b : Hospital) : Int :=
  let aIn := subInLocB loc a
  let bIn := subInLocB loc b
  if aIn && !bIn then -1
  else if !aIn && bIn then 1
  else 0

/-- The three-level relevance comparator of the search route
(`server.js` lines 301-318). -/
def searchCmp (q : String) (locality : Option String) (a b : Hospital) : Int :=
  let aEx := nameExact q a
  let bEx := nameExact q b
  if aEx && !bEx then -1
  else if !aEx && bEx then 1
  else
    match locality with
    | some loc =>
      let aIn := subInLocB loc a
      let bIn := subInLocB loc b
      if aIn && !bIn then -1
      else if !aIn && bIn then 1
      else localeCompare (nameD a) (nameD b)
    | none => localeCompare (nameD a) (nameD b)

/-! ### Query engine operations -/

/-- `GET /api/hospitals`. -/
def listAll (hs : List Hospital) : List Hospital := hs

/-- `GET /api/hospitals/district/:district` with optional `locality` query:
filter by district, then (when a locality is given) sort the filtered copy by
`localityCmp`. -/
def byDistrict (hs : List Hospital) (d : String) (locality : Option String) :
    List Hospital :=
  let filtered := hs.filter (districtPred d)
  match locality with
  | none => filtered
  | some loc => jsSort (localityCmp loc) filtered

/-- `GET /api/hospitals/state/:state`. -/
def byState (hs : List Hospital) (st : String) : List Hospital :=
  hs.filter (statePred st)

/-- `GET /api/hospitals/locality/:locality`. -/
def byLocality (hs : List Hospital) (loc : String) : List Hospital :=
  hs.filter (subLocFilter loc)

/-- `GET /api/hospitals/:id`: `hospitals.find(h => h.id === id)`; `none` is
the 404 not-found outcome. -/
def byId (hs : List Hospital) (id : String) : Option Hospital :=
  hs.find? (fun h => h.id == some id)

/-- The candidate set of `GET /api/hospitals/search`: name substring match,
then the optional district and locality restrictions, in source order. -/
def searchCandidates (hs : List Hospital) (q : String)
    (district locality : Option String) : List Hospital :=
  let f1 := hs.filter (namePred q)
  let f2 := match district with
    | none => f1
    | some d => f1.filter (districtPred d)
  match locality with
  | none => f2
  | some loc => f2.filter (subLocFilter loc)

/-- `GET /api/hospitals/search`: filter, then sort by relevance. -/
def search (hs : List Hospital) (q : String)
    (district locality : Option String) : List Hospital :=
  jsSort (searchCmp q locality) (searchCandidates hs q district locality)

/-- JS `Set` to array in insertion order, deduplicating by first occurrence
(`[...new Set(l)]`). -/
def setList (l : List String) : List String := l.foldl setAdd []

/-- The argument-free `Array.prototype.sort()` on strings: stable sort by the
string order. -/
def jsDefaultSort (l : List String) : List String :=
  stableSort (fun a b => !(decide (b < a))) l

/-- `GET /api/districts`: `[...districts].sort()`. -/
def districtsOp (st : ServerState) : List String := jsDefaultSort st.districts

/-- `GET /api/states`: `[...states].sort()`. -/
def statesOp (st : ServerState) : List String := jsDefaultSort st.states

/-- `GET /api/state/:state/districts`: district values of the matching
records, truthy ones only, deduplicated and sorted. -/
def districtsForState (hs : List Hospital) (st : String) : List String :=
  jsDefaultSort (setList
    (((hs.filter (statePred st)).filterMap (fun h => h.district)).filter
      (fun d => !(d == ""))))

/-! ### State-passing forms of the handlers

Each handler reads the `hospitals` array (or a derived set) and never assigns
to it; the in-place `sort` calls act on arrays freshly produced by `filter`.
The state-passing embedding returns the response together with the resulting
server state. -/

def listAllST (s : ServerState) : List Hospital × ServerState :=
  (listAll s.hospitals, s)

def byDistrictST (s : ServerState) (d : String) (loc : Option String) :
    List Hospital × ServerState :=
  (byDistrict s.hospitals d loc, s)

def byStateST (s : ServerState) (st : String) : List Hospital × ServerState :=
  (byState s.hospitals st, s)

def byLocalityST (s : ServerState) (loc : String) :
    List Hospital × ServerState :=
  (byLocality s.hospitals loc, s)

def byIdST (s : ServerState) (id : String) : Option Hospital × ServerState :=
  (byId s.hospitals id, s)

def searchST (s : ServerState) (q : String) (district locality : Option String) :
    List Hospital × ServerState :=
  (search s.hospitals q district locality, s)

def districtsST (s : ServerState) : List String × ServerState :=
  (districtsOp s, s)

def statesST (s : ServerState) : List String × ServerState :=
  (statesOp s, s)

def districtsForStateST (s : ServerState) (st : String) :
    List String × ServerState :=
  (districtsForState s.hospitals st, s)

/-! ### General lemmas about the stable sort -/

theorem mem_orderedInsert {le : α → α → Bool} {a x : α} :
    ∀ {l : List α}, x ∈ orderedInsert le a l ↔ x = a ∨ x ∈ l := by
  intro l
  induction l with
  | nil => simp [orderedInsert]
  | cons b t ih =>
    cases hab : le a b
    · simp only [orderedInsert, hab, Bool.false_eq_true, if_false,
        List.mem_cons, ih]
      tauto
    · simp only [orderedInsert, hab, if_true, List.mem_cons]

theorem orderedInsert_perm (le : α → α → Bool) (a : α) :
    ∀ l : List α, List.Perm (orderedInsert le a l) (a :: l) := by
  intro l
  induction l with
  | nil => exact List.Perm.refl _
  | cons b t ih =>
    cases hab : le a b
    · simpa [orderedInsert, hab] using (ih.cons b).trans (List.Perm.swap a b t)
    · simp [orderedInsert, hab]

theorem stableSort_perm (le : α → α → Bool) :
    ∀ l : List α, List.Perm (stableSort le l) l := by
  intro l
  induction l with
  | nil => exact List.Perm.refl _
  | cons a t ih =>
    exact (orderedInsert_perm le a (stableSort le t)).trans (ih.cons a)

theorem mem_stableSort (le : α → α → Bool) (l : List α) {x : α} :
    x ∈ stableSort le l ↔ x ∈ l :=
  (stableSort_perm le l).mem_iff

theorem orderedInsert_front {le : α → α → Bool} {a b : α} {l : List α}
    (h : le a b = true) : orderedInsert le a (b :: l) = a :: b :: l := by
  simp [orderedInsert, h]

theorem orderedInsert_append_notle {le : α → α → Bool} {a : α} :
    ∀ {A : List α} (B : List α), (∀ b ∈ A, le a b = false) →
      orderedInsert le a (A ++ B) = A ++ orderedInsert le a B := by
  intro A
  induction A with
  | nil => intro B _; rfl
  | cons b A ih =>
    intro B h
    have hb : le a b = false := h b (List.mem_cons_self b A)
    simp only [List.cons_append, orderedInsert, hb, Bool.false_eq_true,
      if_false]
    exact congrArg (b :: ·) (ih B (fun x hx => h x (List.mem_cons_of_mem b hx)))

theorem orderedInsert_decomp (le : α → α → Bool) (a : α) :
    ∀ l : List α, ∃ s1 s2, l = s1 ++ s2 ∧
      orderedInsert le a l = s1 ++ a :: s2 ∧ ∀ b ∈ s1, le a b = false := by
  intro l
  induction l with
  | nil => exact ⟨[], [], rfl, rfl, by simp⟩
  | cons b t ih =>
    cases hab : le a b
    · obtain ⟨s1, s2, h1, h2, h3⟩ := ih
      refine ⟨b :: s1, s2, by simp [h1], ?_, ?_⟩
      · simp [orderedInsert, hab, h2]
      · intro x hx
        rcases List.mem_cons.mp hx with h | h
        · subst h; exact hab
        · exact h3 x h
    · exact ⟨[], b :: t, rfl, by simp [orderedInsert, hab], by simp⟩

theorem stableSort_partition (p : α → Bool) :
    ∀ l : List α, stableSort (fun a b => p a || !(p b)) l
      = l.filter p ++ l.filter (fun a => !(p a)) := by
  intro l
  induction l with
  | nil => rfl
  | cons a l ih =>
    show orderedInsert _ a (stableSort _ l) = _
    rw [ih]
    cases hpa : p a
    · have h1 : ∀ b ∈ l.filter p, (p a || !(p b)) = false := by
        intro b hb
        have hpb : p b = true := (List.mem_filter.mp hb).2
        simp [hpa, hpb]
      rw [orderedInsert_append_notle (l.filter (fun a => !(p a))) h1]
      have h2 : orderedInsert (fun a b => p a || !(p b)) a
          (l.filter (fun a => !(p a))) = a :: l.filter (fun a => !(p a)) := by
        cases hf : l.filter (fun a => !(p a)) with
        | nil => rfl
        | cons b t =>
          have hbmem : b ∈ l.filter (fun a => !(p a)) := by
            rw [hf]; exact List.mem_cons_self b t
          have hpb : p b = false := by
            have := (List.mem_filter.mp hbmem).2
            simpa using this
          exact orderedInsert_front (by simp [hpa, hpb])
      rw [h2]
      simp [List.filter_cons, hpa]
    · have h2 : orderedInsert (fun a b => p a || !(p b)) a
          (l.filter p ++ l.filter (fun a => !(p a)))
          = a :: (l.filter p ++ l.filter (fun a => !(p a))) := by
        cases hf : l.filter p ++ l.filter (fun a => !(p a)) with
        | nil => rfl
        | cons b t => exact orderedInsert_front (by simp [hpa])
      rw [h2]
      simp [List.filter_cons, hpa]

theorem stableSort_filter {le : α → α → Bool} {p : α → Bool}
    (hp : ∀ a b, p a = true → p b = true → le a b = true) :
    ∀ l : List α, (stableSort le l).filter p = l.filter p := by
  intro l
  induction l with
  | nil => rfl
  | cons a l ih =>
    show (orderedInsert le a (stableSort le l)).filter p = _
    obtain ⟨s1, s2, hdec, hins, hfalse⟩ :=
      orderedInsert_decomp le a (stableSort le l)
    have hsplit : (s1 ++ s2).filter p = l.filter p := by
      rw [← hdec, ih]
    rw [hins]
    cases hpa : p a
    · simp only [List.filter_append, List.filter_cons, hpa, Bool.false_eq_true,
        if_false] at hsplit ⊢
      simpa [List.filter_append] using hsplit
    · have hs1 : s1.filter p = [] := by
        rw [List.filter_eq_nil_iff]
        intro b hb
        intro hpb
        have := hp a b hpa hpb
        rw [hfalse b hb] at this
        exact Bool.noConfusion this
      simp only [List.filter_append, List.filter_cons, hpa, if_true, hs1,
        List.nil_append] at hsplit ⊢
      rw [hsplit]

theorem head_stableSort_min {le : α → α → Bool} {x : α} :
    ∀ {l : List α}, x ∈ l → (∀ y ∈ l, le x y = true) →
      (∀ y ∈ l, y ≠ x → le y x = false) →
      (stableSort le l).head? = some x := by
  intro l
  induction l with
  | nil => intro h; exact absurd h (List.not_mem_nil x)
  | cons a l ih =>
    intro hmem hmin hstrict
    show (orderedInsert le a (stableSort le l)).head? = some x
    by_cases hax : a = x
    · subst hax
      cases hs : stableSort le l with
      | nil => rfl
      | cons b t =>
        have hb : b ∈ l := by
          have : b ∈ stableSort le l := by rw [hs]; exact List.mem_cons_self b t
          exact (mem_stableSort le l).mp this
        have hab : le a b = true := hmin b (List.mem_cons_of_mem a hb)
        rw [orderedInsert_front hab]
        rfl
    · have hxl : x ∈ l := by
        rcases List.mem_cons.mp hmem with h | h
        · exact absurd h.symm hax
        · exact h
      have ihh := ih hxl (fun y hy => hmin y (List.mem_cons_of_mem a hy))
        (fun y hy => hstrict y (List.mem_cons_of_mem a hy))
      cases hs : stableSort le l with
      | nil => rw [hs] at ihh; exact absurd ihh (by simp)
      | cons b t =>
        rw [hs] at ihh
        have hbx : b = x := by simpa using ihh
        subst hbx
        have hlow : le a b = false :=
          hstrict a (List.mem_cons_self a l) hax
        simp [orderedInsert, hlow]

theorem pairwise_orderedInsert {le : α → α → Bool}
    (htot : ∀ a b, le a b = false → le b a = true)
    (htrans : ∀ a b c, le a b = true → le b c = true → le a c = true)
    (a : α) : ∀ {l : List α}, List.Pairwise (fun x y => le x y = true) l →
      List.Pairwise (fun x y => le x y = true) (orderedInsert le a l) := by
  intro l
  induction l with
  | nil => intro _; simp [orderedInsert]
  | cons b t ih =>
    intro hp
    rcases List.pairwise_cons.mp hp with ⟨hbt, hpt⟩
    cases hab : le a b
    · simp only [orderedInsert, hab, Bool.false_eq_true, if_false]
      refine List.pairwise_cons.mpr ⟨?_, ih hpt⟩
      intro y hy
      rcases mem_orderedInsert.mp hy with h | h
      · rw [h]; exact htot a b hab
      · exact hbt y h
    · simp only [orderedInsert, hab, if_true]
      refine List.pairwise_cons.mpr ⟨?_, hp⟩
      intro y hy
      rcases List.mem_cons.mp hy with h | h
      · subst h; exact hab
      · exact htrans a b y hab (hbt y h)

theorem pairwise_stableSort {le : α → α → Bool}
    (htot : ∀ a b, le a b = false → le b a = true)
    (htrans : ∀ a b c, le a b = true → le b c = true → le a c = true) :
    ∀ l : List α, List.Pairwise (fun x y => le x y = true) (stableSort le l) := by
  intro l
  induction l with
  | nil => exact List.Pairwise.nil
  | cons a t ih => exact pairwise_orderedInsert htot htrans a ih

/-! ### Facts about the concrete comparators -/

theorem localeCompare_nonpos {a b : String} : localeCompare a b ≤ 0 ↔ a ≤ b := by
  unfold localeCompare
  by_cases h1 : a < b
  · simp [h1, le_of_lt h1]
  · by_cases h2 : b < a
    · simp [h1, h2, not_le.mpr h2]
    · simp [h1, h2, le_of_not_lt h2]

theorem localeCompare_self (a : String) : localeCompare a a = 0 := by
  simp [localeCompare]

/-- The comparator of the locality prioritisation, as the boolean relation
used by the stable sort: it keeps `a` before `b` unless `a` misses the
locality and `b` hits it. -/
theorem localityCmp_decide (loc : String) :
    (fun a b => decide (localityCmp loc a b ≤ 0)) =
      (fun a b : Hospital => subInLocB loc a || !(subInLocB loc b)) := by
  funext a b
  cases ha : subInLocB loc a <;> cases hb : subInLocB loc b <;>
    simp [localityCmp, ha, hb]

/-- The priority class of a search candidate: exact name matches first, then
(when a locality was supplied) locality matches, then the rest. -/
def searchRank (q : String) (locality : Option String) (h : Hospital) : Nat :=
  (if nameExact q h then 0 else 2) +
    (match locality with
     | some loc => if subInLocB loc h then 0 else 1
     | none => 0)

/-- The search comparator is the lexicographic comparison of the pair
(priority class, name). -/
theorem searchCmp_le_iff (q : String) (locality : Option String)
    (a b : Hospital) :
    searchCmp q locality a b ≤ 0 ↔
      (searchRank q locality a < searchRank q locality b ∨
        (searchRank q locality a = searchRank q locality b ∧
          nameD a ≤ nameD b)) := by
  unfold searchCmp searchRank
  cases locality with
  | none =>
    cases hae : nameExact q a <;> cases hbe : nameExact q b <;>
      simp [hae, hbe, localeCompare_nonpos]
  | some loc =>
    cases hae : nameExact q a <;> cases hbe : nameExact q b <;>
      cases hal : subInLocB loc a <;> cases hbl : subInLocB loc b <;>
        simp [hae, hbe, hal, hbl, localeCompare_nonpos]

/-! ## Claim C1 -/

/-- A row satisfying all of C1's conditions except that the
`Hospital_Category` column is absent. -/
def c1Row : RawRow :=
  [("Hospital_Name", some "City General Hospital"),
   ("Discipline_Systems_of_Medicine", some "Allopathy"),
   ("Total_Num_Beds", some "50"),
   ("Number_Doctor", some "10")]

/-- Claim C1 is false as stated: on a row with a non-empty name, medicine
containing "allopathy", 50 beds and 10 doctors but an absent `category`
field, the classifier does not return a decision at all — reading
`hospital.category.toLowerCase()` raises a `TypeError` — and the row handler
skips the row, so it is not accepted. -/
theorem c1_counterexample :
    classifyE (mkHospital (sanitizeData c1Row)) = Except.error () ∧
      processRow c1Row = none :=
  ⟨rfl, rfl⟩

/-- Claim C1 (amended): absent `name` or `medicine` fields are falsy and fail
the "must include" checks, and absent `specialties` and `careType` fields
pass their "must not include" checks vacuously thanks to optional chaining;
but an absent `category` field raises a `TypeError` inside the classifier,
so the row is skipped (rejected), not accepted. -/
theorem c1_absent_field_handling :
    (∀ h : Hospital, h.name = none → classifyE h = .ok false) ∧
    (∀ (h : Hospital) (nm : String), h.name = some nm → nm ≠ "" →
      h.medicine = none → classifyE h = .ok false) ∧
    (∀ (h : Hospital) (nm med : String), h.name = some nm → nm ≠ "" →
      h.medicine = some med → med ≠ "" →
      strIncludes (jsToLower med) "allopathy" = true →
      h.category = none → classifyE h = Except.error ()) ∧
    (∀ (h : Hospital) (nm med cat tb docs : String),
      h.name = some nm → h.medicine = some med → h.category = some cat →
      h.specialties = none → h.careType = none →
      h.totalBeds = some tb → h.doctors = some docs →
      nm ≠ "" → med ≠ "" →
      strIncludes (jsToLower med) "allopathy" = true →
      strIncludes (jsToLower cat) "dispensary" = false →
      strIncludes (jsToLower cat) "nursing home" = false →
      strIncludes (jsToLower cat) "nursing" = false →
      strIncludes (jsToLower nm) "children" = false →
      strIncludes (jsToLower nm) "child" = false →
      strIncludes (jsToLower nm) "nursing home" = false →
      strIncludes (jsToLower nm) "nursing" = false →
      strIncludes (jsToLower nm) "nursinghome" = false →
      strIncludes (jsToLower nm) "nursing-home" = false →
      strIncludes (jsToLower nm) "nursing_home" = false →
      strIncludes (jsToLower nm) "clinic" = false →
      strIncludes (jsToLower nm) "dispensary" = false →
      strIncludes (jsToLower nm) "health center" = false →
      strIncludes (jsToLower nm) "health centre" = false →
      strIncludes (jsToLower nm) "healthcare center" = false →
      strIncludes (jsToLower nm) "healthcare centre" = false →
      tb ≠ "" → parseIntGt tb 10 = true →
      docs ≠ "" → parseIntGt docs 2 = true →
      classifyE h = .ok true) := by
  refine ⟨?_, ?_, ?_, ?_⟩
  · intro h hn
    simp [classifyE, hn]
  · intro h nm hn hne hm
    simp [classifyE, hn, hne, hm]
  · intro h nm med hn hne hm hme hall hc
    simp [classifyE, hn, hne, hm, hme, hall, hc]
  · intro h nm med cat tb docs hn hm hc hsp hct htb hd hne hme h1 h2 h3 h4
      h5 h6 h7 h8 h9 h10 h11 h12 h13 h14 h15 h16 h17 htbne h18 hdne h19
    simp [classifyE, optIncludes, numGuard, hn, hm, hc, hsp, hct, htb, hd,
      hne, hme, h1, h2, h3, h4, h5, h6, h7, h8, h9, h10, h11, h12, h13, h14,
      h15, h16, h17, htbne, h18, hdne, h19]

/-- Concrete instantiations of each branch of `c1_absent_field_handling`. -/
theorem c1_absent_field_handling_witness :
    classifyE { name := none } = .ok false ∧
    classifyE { name := some "A", medicine := none } = .ok false ∧
    classifyE { name := some "City General Hospital",
                medicine := some "Allopathy" } = Except.error () ∧
    classifyE { name := some "City General Hospital",
                medicine := some "Allopathy", category := some "General",
                totalBeds := some "50", doctors := some "10" } = .ok true :=
  ⟨c1_absent_field_handling.1 _ rfl,
   c1_absent_field_handling.2.1 _ "A" rfl (by decide) rfl,
   c1_absent_field_handling.2.2.1 _ "City General Hospital" "Allopathy"
     rfl (by decide) rfl (by decide) (by decide) rfl,
   c1_absent_field_handling.2.2.2 _ "City General Hospital" "Allopathy"
     "General" "50" "10" rfl rfl rfl rfl rfl rfl rfl (by decide) (by decide)
     (by decide) (by decide) (by decide) (by decide) (by decide) (by decide)
     (by decide) (by decide) (by decide) (by decide) (by decide) (by decide)
     (by decide) (by decide) (by decide) (by decide) (by decide) (by decide)
     (by decide) (by decide) (by decide)⟩

/-! ## Claim C2 -/

/-- A row whose bed count is `" 0 "`: truthy and not literally `"0"`, so
`sanitizeData` trims it to `"0"` instead of blanking it. -/
def c2Row : RawRow := [("Total_Num_Beds", some " 0 ")]

/-- Claim C2 is false as stated: the raw value `" 0 "` trims to `"0"`, so the
normalized row does contain the string `"0"`. -/
theorem c2_counterexample :
    sanitizeData c2Row = [("Total_Num_Beds", "0")] ∧
      ("Total_Num_Beds", "0") ∈ sanitizeData c2Row := by
  refine ⟨by decide, by decide⟩

/-- Claim C2 (amended): only a raw value exactly equal to `"0"` (or a falsy
one) is mapped to `""`; a value that merely trims to `"0"`, such as `" 0 "`,
survives as the string `"0"`. -/
theorem c2_zero_placeholder :
    (∀ (d : RawRow) (k : String), (k, some "0") ∈ d →
      (k, "") ∈ sanitizeData d) ∧
    (∀ v : String, sanitizeValue (some v) = "0" →
      v ≠ "0" ∧ v ≠ "" ∧ jsTrim v = "0") := by
  constructor
  · intro d k hmem
    have h := List.mem_map_of_mem
      (fun kv : String × Option String => (kv.1, sanitizeValue kv.2)) hmem
    simpa [sanitizeData, sanitizeValue] using h
  · intro v hv
    by_cases hz : v = "" ∨ v = "0"
    · rw [sanitizeValue, if_pos hz] at hv
      exact absurd hv (by decide)
    · push_neg at hz
      rw [sanitizeValue, if_neg (by tauto)] at hv
      exact ⟨hz.2, hz.1, hv⟩

/-- Concrete instantiations of both branches of `c2_zero_placeholder`. -/
theorem c2_zero_placeholder_witness :
    ("Total_Num_Beds", "") ∈ sanitizeData [("Total_Num_Beds", some "0")] ∧
      (" 0 " ≠ "0" ∧ " 0 " ≠ "" ∧ jsTrim " 0 " = "0") :=
  ⟨c2_zero_placeholder.1 [("Total_Num_Beds", some "0")] "Total_Num_Beds"
      (by decide),
   c2_zero_placeholder.2 " 0 " (by decide)⟩

/-! ## Claim C6 -/

/-- Claim C6: the normalizer maps falsy values (`null`/missing/empty) and the
literal `"0"` to `""`, trims everything else, keeps the keys of the row, and
is total (never raises). -/
theorem c6_normalizer :
    sanitizeValue none = "" ∧ sanitizeValue (some "") = "" ∧
    sanitizeValue (some "0") = "" ∧
    (∀ v : String, v ≠ "" → v ≠ "0" → sanitizeValue (some v) = jsTrim v) ∧
    (∀ (d : RawRow) (kv : String × Option String), kv ∈ d →
      (kv.1, sanitizeValue kv.2) ∈ sanitizeData d) := by
  refine ⟨rfl, rfl, rfl, ?_, ?_⟩
  · intro v h1 h2
    rw [sanitizeValue, if_neg (by tauto)]
  · intro d kv hkv
    exact List.mem_map_of_mem
      (fun kv : String × Option String => (kv.1, sanitizeValue kv.2)) hkv

/-- Concrete instantiations of the conditional branches of `c6_normalizer`. -/
theorem c6_normalizer_witness :
    sanitizeValue (some "  Pune  ") = jsTrim "  Pune  " ∧
      ("State", sanitizeValue (some "  Pune  ")) ∈
        sanitizeData [("State", some "  Pune  ")] :=
  ⟨(c6_normalizer.2.2.2.1) "  Pune  " (by decide) (by decide),
   (c6_normalizer.2.2.2.2) [("State", some "  Pune  ")]
     ("State", some "  Pune  ") (by decide)⟩

/-! ## Claim C8 -/

/-- Claim C8: a row whose classification raises is skipped and ingestion
continues — the committed Directory Store (records and both derived sets)
equals the store built from the row sequence with the failing row removed,
and `loadStore` is total, so the error never propagates. -/
theorem c8_row_error_skipped (pre post : List RawRow) (r : RawRow)
    (herr : classifyE (mkHospital (sanitizeData r)) = Except.error ()) :
    loadStore (pre ++ r :: post) = loadStore (pre ++ post) := by
  unfold loadStore
  rw [List.foldl_append, List.foldl_append, List.foldl_cons]
  have hid : stepRow (List.foldl stepRow emptyState pre) r
      = List.foldl stepRow emptyState pre := by
    simp [stepRow, herr]
  rw [hid]

/-- A row that raises during classification (absent `Hospital_Category`). -/
def c8BadRow : RawRow :=
  [("Hospital_Name", some "Metro Trauma Centre Hospital"),
   ("Discipline_Systems_of_Medicine", some "Allopathy"),
   ("Total_Num_Beds", some "120"),
   ("Number_Doctor", some "15")]

/-- Concrete instantiation of `c8_row_error_skipped`: the bad row alone
yields the same (empty) store as no rows at all. -/
theorem c8_row_error_skipped_witness :
    loadStore ([] ++ c8BadRow :: []) = loadStore ([] ++ []) :=
  c8_row_error_skipped [] [] c8BadRow rfl

/-! ## Claim C9 -/

/-- Claim C9: every query operation leaves the server state (the record
sequence and both derived sets) unchanged — each handler only reads the
store, and the in-place sorts act on freshly filtered copies, which the
state-passing embedding makes structural. -/
theorem c9_queries_pure (s : ServerState) (d st loc q id : String)
    (locOpt districtOpt localityOpt : Option String) :
    (listAllST s).2 = s ∧ (byDistrictST s d locOpt).2 = s ∧
    (byStateST s st).2 = s ∧ (byLocalityST s loc).2 = s ∧
    (byIdST s id).2 = s ∧ (searchST s q districtOpt localityOpt).2 = s ∧
    (districtsST s).2 = s ∧ (statesST s).2 = s ∧
    (districtsForStateST s st).2 = s :=
  ⟨rfl, rfl, rfl, rfl, rfl, rfl, rfl, rfl, rfl⟩

/-! ## Claim C5 -/

/-- A fully qualifying row at the boundary: 11 beds, 3 doctors. -/
def c5RowAccepted : RawRow :=
  [("Hospital_Name", some "City General Hospital"),
   ("Discipline_Systems_of_Medicine", some "Allopathy"),
   ("Hospital_Category", some "General"),
   ("State", some "Maharashtra"),
   ("District", some "Pune"),
   ("Total_Num_Beds", some "11"),
   ("Number_Doctor", some "3")]

/-- The same row with 10 beds. -/
def c5RowRejected : RawRow :=
  [("Hospital_Name", some "City General Hospital"),
   ("Discipline_Systems_of_Medicine", some "Allopathy"),
   ("Hospital_Category", some "General"),
   ("State", some "Maharashtra"),
   ("District", some "Pune"),
   ("Total_Num_Beds", some "10"),
   ("Number_Doctor", some "3")]

/-- Claim C5: the numeric proxies use strict inequalities — any record whose
`totalBeds` parses to an integer at most 10, or whose `doctors` parses to an
integer at most 2, is not accepted; the boundary row with beds `"11"` and
doctors `"3"` is accepted while the same row with beds `"10"` is rejected. -/
theorem c5_strict_thresholds :
    (∀ (h : Hospital) (s : String) (n : Int), h.totalBeds = some s →
      parseIntJS s = some n → n ≤ 10 → classifyE h ≠ .ok true) ∧
    (∀ (h : Hospital) (s : String) (n : Int), h.doctors = some s →
      parseIntJS s = some n → n ≤ 2 → classifyE h ≠ .ok true) ∧
    processRow c5RowAccepted = some (mkHospital (sanitizeData c5RowAccepted)) ∧
    processRow c5RowRejected = none := by
  refine ⟨?_, ?_, rfl, rfl⟩
  · intro h s n hb hp hle hacc
    have hng : numGuard h.totalBeds 10 = false := by
      rw [hb]
      by_cases hs0 : s = ""
      · simp [numGuard, hs0]
      · simp only [numGuard, hs0, if_false, parseIntGt, hp,
          decide_eq_false_iff_not]
        omega
    unfold classifyE at hacc
    repeat' split at hacc
    all_goals
      first
      | exact Except.noConfusion hacc
      | (injection hacc with hq
         simp [hng] at hq)
  · intro h s n hd hp hle hacc
    have hng : numGuard h.doctors 2 = false := by
      rw [hd]
      by_cases hs0 : s = ""
      · simp [numGuard, hs0]
      · simp only [numGuard, hs0, if_false, parseIntGt, hp,
          decide_eq_false_iff_not]
        omega
    unfold classifyE at hacc
    repeat' split at hacc
    all_goals
      first
      | exact Except.noConfusion hacc
      | (injection hacc with hq
         simp [hng] at hq)

/-- Concrete instantiations of both strict-threshold rejections. -/
theorem c5_strict_thresholds_witness :
    classifyE { name := some "City General Hospital",
                medicine := some "Allopathy", category := some "General",
                totalBeds := some "10", doctors := some "3" } ≠ .ok true ∧
    classifyE { name := some "City General Hospital",
                medicine := some "Allopathy", category := some "General",
                totalBeds := some "11", doctors := some "2" } ≠ .ok true :=
  ⟨c5_strict_thresholds.1 _ "10" 10 rfl rfl (by decide),
   c5_strict_thresholds.2.1 _ "2" 2 rfl rfl (by decide)⟩

/-! ## Claim C7 -/

/-- When the first block of a list rejects the predicate and the next element
satisfies it, `find?` returns exactly that element. -/
theorem find?_append_first {α : Type _} {p : α → Bool} :
    ∀ (l1 : List α) (a : α) (l2 : List α), p a = true →
      (∀ x ∈ l1, p x = false) → (l1 ++ a :: l2).find? p = some a := by
  intro l1
  induction l1 with
  | nil =>
    intro a l2 hp _
    simp [List.find?, hp]
  | cons x l1 ih =>
    intro a l2 hp hall
    have hx : p x = false := hall x (List.mem_cons_self x l1)
    simp only [List.cons_append, List.find?, hx]
    exact ih a l2 hp (fun y hy => hall y (List.mem_cons_of_mem x hy))

/-- Claim C7: `byId` returns the first record in store order whose `id`
equals the requested id under exact case-sensitive equality, and returns the
not-found signal (`none`, the 404 outcome) when no record matches; no other
fault is possible since `byId` is total. -/
theorem c7_byId (hs : List Hospital) (id : String) :
    ((∀ h ∈ hs, h.id ≠ some id) → byId hs id = none) ∧
    (∀ (l1 l2 : List Hospital) (h : Hospital), hs = l1 ++ h :: l2 →
      h.id = some id → (∀ x ∈ l1, x.id ≠ some id) →
      byId hs id = some h) := by
  constructor
  · intro hall
    apply List.find?_eq_none.mpr
    intro x hx
    simp only [beq_iff_eq]
    exact hall x hx
  · intro l1 l2 h hsplit hid hnone
    subst hsplit
    apply find?_append_first
    · simp [beq_iff_eq, hid]
    · intro x hx
      simp only [beq_eq_false_iff_ne, ne_eq]
      exact hnone x hx

/-- Concrete instantiations of both branches of `c7_byId`, on a store holding
two records with duplicate identifiers after a non-matching one. -/
theorem c7_byId_witness :
    byId [{ id := some "7" }, { id := some "3", name := some "First" },
          { id := some "3", name := some "Second" }] "9" = none ∧
    byId [{ id := some "7" }, { id := some "3", name := some "First" },
          { id := some "3", name := some "Second" }] "3" =
      some { id := some "3", name := some "First" } :=
  ⟨(c7_byId _ "9").1 (by decide),
   (c7_byId _ "3").2 [{ id := some "7" }]
     [{ id := some "3", name := some "Second" }]
     { id := some "3", name := some "First" } rfl rfl (by decide)⟩
/-! ## Claim C3 -/

/-- Claim C3: district filtering with a locality hint is a stable partition —
without a hint the result is the district-filtered store in listAll order,
and with hint `loc` it is exactly the locality-matching records followed by
the rest, each group in its original relative order. -/
theorem c3_byDistrict_stable_partition (hs : List Hospital) (d loc : String) :
    byDistrict hs d none = hs.filter (districtPred d) ∧
    byDistrict hs d (some loc) =
      (hs.filter (districtPred d)).filter (subInLocB loc) ++
        (hs.filter (districtPred d)).filter (fun h => !(subInLocB loc h)) := by
  refine ⟨rfl, ?_⟩
  show jsSort (localityCmp loc) (hs.filter (districtPred d)) = _
  unfold jsSort
  rw [localityCmp_decide loc]
  exact stableSort_partition (subInLocB loc) (hs.filter (districtPred d))

/-! ## Claim C4 -/

/-- The boolean sort relation of the search comparator is total. -/
theorem searchLe_total (q : String) (locality : Option String)
    (a b : Hospital) (hf : decide (searchCmp q locality a b ≤ 0) = false) :
    decide (searchCmp q locality b a ≤ 0) = true := by
  apply decide_eq_true
  rw [searchCmp_le_iff]
  have hnf : ¬(searchCmp q locality a b ≤ 0) := of_decide_eq_false hf
  rw [searchCmp_le_iff] at hnf
  push_neg at hnf
  obtain ⟨h1, h2⟩ := hnf
  rcases Nat.lt_or_ge (searchRank q locality b) (searchRank q locality a)
    with hlt | hge
  · exact Or.inl hlt
  · have heq : searchRank q locality a = searchRank q locality b :=
      le_antisymm hge h1
    exact Or.inr ⟨heq.symm, le_of_lt (h2 heq)⟩

/-- The boolean sort relation of the search comparator is transitive. -/
theorem searchLe_trans (q : String) (locality : Option String)
    (a b c : Hospital)
    (h1 : decide (searchCmp q locality a b ≤ 0) = true)
    (h2 : decide (searchCmp q locality b c ≤ 0) = true) :
    decide (searchCmp q locality a c ≤ 0) = true := by
  apply decide_eq_true
  rw [searchCmp_le_iff]
  have g1 := of_decide_eq_true h1
  have g2 := of_decide_eq_true h2
  rw [searchCmp_le_iff] at g1 g2
  rcases g1 with g1 | ⟨e1, n1⟩
  · rcases g2 with g2 | ⟨e2, n2⟩
    · exact Or.inl (lt_trans g1 g2)
    · exact Or.inl (e2 ▸ g1)
  · rcases g2 with g2 | ⟨e2, n2⟩
    · exact Or.inl (lt_of_le_of_lt (le_of_eq e1) g2)
    · exact Or.inr ⟨e1.trans e2, le_trans n1 n2⟩

/-- Claim C4: the search result is the candidate set reordered by the
three-level relevance comparator (exact name match, then locality match,
then name order) — it is a permutation of the candidates, pairwise sorted by
the comparator, and when exactly one candidate matches the query exactly,
that candidate comes first. -/
theorem c4_search_relevance (hs : List Hospital) (q : String)
    (district locality : Option String) :
    List.Perm (search hs q district locality)
      (searchCandidates hs q district locality) ∧
    List.Pairwise (fun a b => searchCmp q locality a b ≤ 0)
      (search hs q district locality) ∧
    (∀ x ∈ searchCandidates hs q district locality, nameExact q x = true →
      (∀ y ∈ searchCandidates hs q district locality,
        nameExact q y = true → y = x) →
      (search hs q district locality).head? = some x) := by
  refine ⟨stableSort_perm _ _, ?_, ?_⟩
  · have hp := @pairwise_stableSort Hospital
      (fun a b => decide (searchCmp q locality a b ≤ 0))
      (fun a b hf => searchLe_total q locality a b hf)
      (fun a b c h1 h2 => searchLe_trans q locality a b c h1 h2)
      (searchCandidates hs q district locality)
    exact hp.imp (fun h => of_decide_eq_true h)
  · intro x hx hxe huniq
    apply head_stableSort_min hx
    · intro y hy
      by_cases hye : nameExact q y = true
      · rw [huniq y hy hye]
        apply decide_eq_true
        rw [searchCmp_le_iff]
        exact Or.inr ⟨rfl, le_refl _⟩
      · have hyf : nameExact q y = false := by
          cases hh : nameExact q y
          · rfl
          · exact absurd hh hye
        apply decide_eq_true
        have hcmp : searchCmp q locality x y = -1 := by
          simp [searchCmp, hxe, hyf]
        rw [hcmp]
        decide
    · intro y hy hyx
      have hyf : nameExact q y = false := by
        cases hh : nameExact q y
        · rfl
        · exact absurd (huniq y hy hh) hyx
      apply decide_eq_false
      have hcmp : searchCmp q locality y x = 1 := by
        simp [searchCmp, hxe, hyf]
      rw [hcmp]
      decide

/-- A two-record store in which only the second record matches the query
exactly. -/
def c4Store : List Hospital :=
  [{ name := some "Apollo Hospital Annex" },
   { name := some "Apollo Hospital" }]

/-- Concrete instantiation of the first-place branch of
`c4_search_relevance`: the unique exact (case-insensitive) match is placed
first even though the store lists it last. -/
theorem c4_search_relevance_witness :
    (search c4Store "apollo HOSPITAL" none none).head? =
      some { name := some "Apollo Hospital" } :=
  (c4_search_relevance c4Store "apollo HOSPITAL" none none).2.2
    { name := some "Apollo Hospital" } (by decide) (by decide) (by decide)

/-! ## Claim C10 -/

/-- Claim C10: every query operation is deterministic — the embedding is
functional, so repeated invocations agree — and the two sorting operations
break comparator ties by Directory Store order: filtering the district
result to either tie class of the locality comparator, or the search result
to one tie class of the relevance comparator, yields exactly the
corresponding filter of the unsorted candidates in store order. -/
theorem c10_deterministic_ties (s : ServerState) (d st loc q id nm : String)
    (districtOpt localityOpt : Option String) (t : Bool) (rk : Nat) :
    listAllST s = listAllST s ∧
    byDistrictST s d localityOpt = byDistrictST s d localityOpt ∧
    byStateST s st = byStateST s st ∧
    byLocalityST s loc = byLocalityST s loc ∧
    byIdST s id = byIdST s id ∧
    searchST s q districtOpt localityOpt
      = searchST s q districtOpt localityOpt ∧
    districtsST s = districtsST s ∧
    statesST s = statesST s ∧
    districtsForStateST s st = districtsForStateST s st ∧
    (byDistrict s.hospitals d (some loc)).filter
        (fun h => subInLocB loc h == t) =
      (s.hospitals.filter (districtPred d)).filter
        (fun h => subInLocB loc h == t) ∧
    (search s.hospitals q districtOpt localityOpt).filter
        (fun h => (searchRank q localityOpt h == rk) && (nameD h == nm)) =
      (searchCandidates s.hospitals q districtOpt localityOpt).filter
        (fun h => (searchRank q localityOpt h == rk) && (nameD h == nm)) := by
  refine ⟨rfl, rfl, rfl, rfl, rfl, rfl, rfl, rfl, rfl, ?_, ?_⟩
  · show (jsSort (localityCmp loc)
        (s.hospitals.filter (districtPred d))).filter _ = _
    unfold jsSort
    apply stableSort_filter
    intro a b ha hb
    have ha2 : subInLocB loc a = t := by simpa using ha
    have hb2 : subInLocB loc b = t := by simpa using hb
    apply decide_eq_true
    have hz : localityCmp loc a b = 0 := by
      simp [localityCmp, ha2, hb2]
    rw [hz]
  · unfold search jsSort
    apply stableSort_filter
    intro a b ha hb
    rw [Bool.and_eq_true] at ha hb
    have har : searchRank q localityOpt a = rk := by simpa using ha.1
    have hbr : searchRank q localityOpt b = rk := by simpa using hb.1
    have han : nameD a = nm := by simpa using ha.2
    have hbn : nameD b = nm := by simpa using hb.2
    apply decide_eq_true
    rw [searchCmp_le_iff]
    exact Or.inr ⟨har.trans hbr.symm, le_of_eq (han.trans hbn.symm)⟩

end CancerDashboard
